import Mathlib

/-!
Verification of the KmerComm distributed FASTA / k-mer routing front-end.

The development shallowly embeds the pipeline of `src/FastaIndex.cpp`,
`src/src/FastaIndex.cpp` and `src/KmerComm.cpp`:

* `.fai` index parsing on rank 0 and the scatter partition of records;
* the parallel read materializer (byte-range computation and the
  line-unwrap copy loop);
* the k-mer enumerator, canonicalization, hash partitioning, all-to-all
  exchange and key-map construction of `GetKmerCountMapKeys`.

Machine integers are modelled as `Nat`/`Int` with explicit wrap-around
where the C++ narrows; file contents are total functions `Nat → Char`;
C++ undefined behaviour (e.g. `front()` on an empty vector) is surfaced
as `Option.none`.
-/

namespace KmerComm

/-- A `.fai` index record, from `FastaIndex.h` (as consumed by the `.cpp`
sources): `len` nucleotides, starting byte offset `pos`, wrap width
`bases`.  The read name is parsed but not stored in the record. -/
structure FaidxRecord where
  len : Nat
  pos : Nat
  bases : Nat
deriving Repr, DecidableEq

/-! ## `.fai` parsing on rank 0 (`GetFaidxRecord`, `src/FastaIndex.cpp:10-17`)

`std::istringstream(line) >> name >> record.len >> record.pos >> record.bases`
is modelled by a token stream with C++ stream semantics: once an
extraction fails the stream enters a failed state; an extraction from a
failed stream leaves its target unmodified (the default-initialized
record field is indeterminate, modelled by a `junk` parameter); an
extraction whose sentry succeeds but whose parse fails writes `0`
(C++11 semantics) and sets the fail state. -/

/-- Whitespace tokenization as performed by repeated
`std::istringstream` extraction: `cur` accumulates the current token in
reverse. -/
def tokensAux : List Char → List Char → List (List Char)
  | [], cur => if cur.isEmpty then [] else [cur.reverse]
  | c :: cs, cur =>
    if c.isWhitespace then
      if cur.isEmpty then tokensAux cs [] else cur.reverse :: tokensAux cs []
    else tokensAux cs (c :: cur)

/-- The whitespace-separated tokens of one `.fai` line (lines are
modelled as character lists). -/
def tokensOf (line : List Char) : List (List Char) :=
  tokensAux line []

/-- `unsigned long` parse of one token: succeeds iff the token is a
non-empty run of decimal digits. -/
def parseNatToken (cs : List Char) : Option Nat :=
  if cs.isEmpty then none
  else if cs.all (fun c => c.isDigit) then
    some (cs.foldl (fun a c => a * 10 + (c.toNat - 48)) 0)
  else none

/-- State of an input string stream: remaining whitespace-separated
tokens and the good/fail flag. -/
structure IStream where
  toks : List (List Char)
  ok : Bool
deriving Repr, DecidableEq

/-- `stream >> (s : std::string)`: takes the next token, fails (leaving
the target empty) when no token remains or the stream already failed. -/
def extractString (s : IStream) : List Char × IStream :=
  if !s.ok then ([], s)
  else
    match s.toks with
    | [] => ([], { s with ok := false })
    | t :: rest => (t, { toks := rest, ok := true })

/-- `stream >> (n : unsigned long)`: on an already-failed stream, and
on sentry failure at end of input (no token left), the target keeps its
indeterminate value `junkv`; on a sentry-ok parse failure the target is
set to `0` and the stream fails (C++11). -/
def extractNat (junkv : Nat) (s : IStream) : Nat × IStream :=
  if !s.ok then (junkv, s)
  else
    match s.toks with
    | [] => (junkv, { s with ok := false })
    | t :: rest =>
      match parseNatToken t with
      | some v => (v, { toks := rest, ok := true })
      | none => (0, { toks := rest, ok := false })

/-- `GetFaidxRecord` (`src/FastaIndex.cpp:10-17`): parse one `.fai` line
into a record (plus the name pushed into the parallel name vector).
`junk` models the indeterminate fields of the default-initialized
`faidx_record_t record;`.  No failure is ever reported: every line
produces a record. -/
def GetFaidxRecord (junk : FaidxRecord) (line : List Char) : FaidxRecord × List Char :=
  let s0 : IStream := { toks := tokensOf line, ok := true }
  let ns := extractString s0
  let ls := extractNat junk.len ns.2
  let ps := extractNat junk.pos ls.2
  let bs := extractNat junk.bases ps.2
  ({ len := ls.1, pos := ps.1, bases := bs.1 }, ns.1)

/-- Rank 0's record-loading loop (`src/FastaIndex.cpp:33-41`):
`while (std::getline(filestream, line)) root_records.push_back(...)`.
`fileLines = none` models a `.fai` that cannot be opened: the stream is
in a failed state, `getline` immediately returns false and the loop body
never runs, so the record list is empty and no error is raised. -/
def rank0LoadRecords (junk : FaidxRecord) (fileLines : Option (List (List Char))) :
    List FaidxRecord :=
  match fileLines with
  | none => []
  | some lines => lines.map (fun line => (GetFaidxRecord junk line).1)

/-! ## Scatter partition (`FastaIndex::FastaIndex`, `src/FastaIndex.cpp:50-56`) -/

/-- The `sendcounts` computed by the constructor on rank 0:
`records_per_proc = num_records / nprocs`, the first `P-1` entries are
`records_per_proc` (`std::fill_n`), and the last entry is
`num_records - (nprocs-1) * records_per_proc`. -/
def scatterCounts (N P : Nat) : List Nat :=
  List.replicate (P - 1) (N / P) ++ [N - (P - 1) * (N / P)]

/-- The record slices delivered by `MPI_Scatterv` with the constructor's
`sendcounts` and `displs` (`displs[i] = i * records_per_proc` by the
exclusive `partial_sum`): rank `i < P-1` receives
`records[i*q .. (i+1)*q)` and the last rank receives the rest. -/
def scatterSlices (records : List FaidxRecord) (P : Nat) : List (List FaidxRecord) :=
  let q := records.length / P
  (List.range P).map (fun i =>
    if i + 1 = P then records.drop ((P - 1) * q)
    else (records.drop (i * q)).take q)

/-- End-to-end record distribution of `FastaIndex::FastaIndex`: rank 0
loads the `.fai` (or nothing, when the file cannot be opened) and the
slices are scattered.  The constructor has no failure path: the result
is always a plain list of per-rank slices. -/
def fastaIndexBuildRecords (fileLines : Option (List (List Char)))
    (junk : FaidxRecord) (P : Nat) : List (List FaidxRecord) :=
  scatterSlices (rank0LoadRecords junk fileLines) P

/-- Error kind of §7 of the specification. -/
inductive IndexError where
  | IndexUnavailable
deriving Repr, DecidableEq

/-- Modelled from the spec: `FastaIndex` construction as §4.2/§7 describe
it — when the `.fai` cannot be opened on rank 0 (`fileLines = none`)
the build fails with `IndexUnavailable`, raised collectively, before any
further work; otherwise the records are scattered as in the code.  This
definition follows the spec's words and exists to be compared with
`fastaIndexBuildRecords`, the embedding of the source. -/
def fastaIndexBuildSpec (fileLines : Option (List (List Char)))
    (junk : FaidxRecord) (P : Nat) : Except IndexError (List (List FaidxRecord)) :=
  match fileLines with
  | none => Except.error IndexError.IndexUnavailable
  | some lines =>
    Except.ok (scatterSlices (lines.map (fun line => (GetFaidxRecord junk line).1)) P)

/-! ## Parallel read materializer
(`FastaIndex::GetMyReads`, `src/FastaIndex.cpp:73-132`, and the
identical copy loop of `FastaIndex::GetReadsFromRecords`,
`src/src/FastaIndex.cpp:76-143`) -/

/-- The byte range derived from the local slice:
`startpos = records.front().pos` and
`endpos = last.pos + last.len + last.len / last.bases` (before the
clamp against the file size).  The C++ takes `records.front()` and
`records.back()` unconditionally; on an empty slice both are undefined
behaviour, surfaced here as `none`. -/
def rangeOfRecords : List FaidxRecord → Option (Nat × Nat)
  | [] => none
  | first :: rest =>
    let last := rest.getLastD first
    some (first.pos, last.pos + last.len + last.len / last.bases)

/-- The clamped chunk range of `src/FastaIndex.cpp:86-96`:
`endpos = std::max(endpos, filesize)` (this source file uses `max`). -/
def mychunkRangeMain (filesize : Nat) (records : List FaidxRecord) :
    Option (Nat × Nat) :=
  (rangeOfRecords records).map (fun se => (se.1, max se.2 filesize))

/-- The clamped chunk range of `src/src/FastaIndex.cpp:87-98`:
`endpos = std::min(endpos, filesize)` (that source file uses `min`,
with the `max` variant commented out). -/
def mychunkRangeAlt (filesize : Nat) (records : List FaidxRecord) :
    Option (Nat × Nat) :=
  (rangeOfRecords records).map (fun se => (se.1, min se.2 filesize))

/-- The inner copy loop of the materializer
(`src/FastaIndex.cpp:113-127`): starting at `chunkpos = rec.pos - startpos`,
repeatedly copy `cnt = min(bases, remain)` characters and skip one byte
(the line terminator) until `remain` is exhausted.  When `bases = 0`
and `remain > 0` the C++ loop never terminates (`cnt = 0` makes no
progress); that case is cut off here and returns the bytes copied so
far, i.e. none. -/
def copyRun (chunk : Nat → Char) (chunkpos locpos remain bases : Nat) :
    List Char :=
  if _h : remain = 0 then []
  else if _hb : bases = 0 then []
  else
    ((List.range (min bases remain)).map (fun j => chunk (chunkpos + locpos + j))) ++
      copyRun chunk chunkpos (locpos + (min bases remain + 1))
        (remain - min bases remain) bases
termination_by remain
decreasing_by omega

/-- One read materialized from one record: the copy loop writes exactly
`rec.len` characters into `seqbuf` and the string is constructed as
`String(seqbuf, rec.len)`.  `chunk` is the local byte buffer, indexed
from `startpos`. -/
def readOfRecord (chunk : Nat → Char) (startpos : Nat) (rec : FaidxRecord) :
    List Char :=
  copyRun chunk (rec.pos - startpos) 0 rec.len rec.bases

/-- `FastaIndex::GetMyReads` (`src/FastaIndex.cpp:73-132`): compute the
byte range from `records.front()`/`records.back()` (undefined behaviour
on an empty slice, surfaced as `none`), read the chunk collectively
(the chunk buffer is the file contents from `startpos`, its clamped
extent is modelled by `mychunkRangeMain`), then materialize one read
per record, in record order, by the copy loop. -/
def GetMyReads (file : Nat → Char) (filesize : Nat)
    (records : List FaidxRecord) : Option (List (List Char)) :=
  match rangeOfRecords records with
  | none => none
  | some se =>
    let startpos := se.1
    let _endpos := max se.2 filesize
    let chunk : Nat → Char := fun j => file (startpos + j)
    some (records.map (fun rec => readOfRecord chunk startpos rec))

/-- The copy loop writes exactly `remain` characters whenever the wrap
width is positive. -/
theorem copyRun_length (chunk : Nat → Char) (chunkpos bases : Nat)
    (hb : 0 < bases) :
    ∀ remain locpos, (copyRun chunk chunkpos locpos remain bases).length = remain := by
  intro remain
  induction remain using Nat.strong_induction_on with
  | _ remain ih =>
    intro locpos
    rw [copyRun.eq_def]
    split
    · simp [*]
    · split
      · omega
      · rename_i h hb0
        have hcnt : 0 < min bases remain := by omega
        have hlt : remain - min bases remain < remain := by omega
        simp only [List.length_append, List.length_map, List.length_range,
          ih _ hlt]
        omega

/-! ## K-mer primitive and enumerator

The k-mer class (`Kmer.h`) and the template `ForeachKmer` with its
handlers (`KmerComm.h`) are declared in headers that are not part of
the four source files; only their callers in `src/KmerComm.cpp` are.
They are modelled from the spec (§3, §4.4): canonicalization is the
lexicographically smaller of the window and its reverse complement;
the enumerator visits every length-`k` window of every read of length
`≥ k`, in ascending window-offset order, and skips shorter reads. -/

/-- Modelled from the spec: nucleotide complement used by the (missing)
k-mer primitive `Kmer.h`. -/
def compNuc : Char → Char
  | 'A' => 'T'
  | 'C' => 'G'
  | 'G' => 'C'
  | 'T' => 'A'
  | c => c

/-- Modelled from the spec: reverse complement of a nucleotide string. -/
def revComp (s : List Char) : List Char :=
  (s.map compNuc).reverse

/-- Byte-wise lexicographic `≤` on nucleotide strings, as `char`
comparison in the (missing) k-mer primitive. -/
def lexLe : List Char → List Char → Bool
  | [], _ => true
  | _ :: _, [] => false
  | a :: as, b :: bs =>
    if a.toNat < b.toNat then true
    else if b.toNat < a.toNat then false
    else lexLe as bs

/-- Modelled from the spec: the canonical k-mer is the lexicographically
smaller of the window and its reverse complement (§3). -/
def canonicalKmer (s : List Char) : List Char :=
  if lexLe s (revComp s) then s else revComp s

/-- Modelled from the spec: the handler-invocation trace of `ForeachKmer`
on a single read (§4.4): one canonical k-mer per window `s[i..i+k)`,
`i ∈ [0, L-k]`, in ascending offset order; a read with `L < k`
contributes nothing. -/
def foreachKmerRead (k : Nat) (s : List Char) : List (List Char) :=
  if s.length < k then []
  else (List.range (s.length - k + 1)).map (fun i => canonicalKmer ((s.drop i).take k))

/-- Modelled from the spec: the full handler-invocation trace of
`ForeachKmer` over the local read set, reads in ascending index order. -/
def foreachKmer (k : Nat) (reads : List (List Char)) : List (List Char) :=
  reads.flatMap (foreachKmerRead k)

/-! ## K-mer router (`GetKmerCountMapKeys`, `src/KmerComm.cpp:6-196`) -/

/-- Modelled from the spec (§3): the owner of a k-mer is its hash
reduced modulo the process count; `KmerPartitionHandler` (declared in
the missing `KmerComm.h`) appends each enumerated k-mer to outgoing
bucket `owner(km)`.  `kmerBucket` is the bucket this rank fills for
destination `dest`: the enumerated canonical k-mers whose owner is
`dest`, in enumeration order. -/
def kmerBucket (hash : List Char → Nat) (k P : Nat)
    (reads : List (List Char)) (dest : Nat) : List (List Char) :=
  (foreachKmer k reads).filter (fun km => hash km % P == dest)

/-- The payload rank `r` is offered through `MPI_ALLTOALLV`
(`src/KmerComm.cpp:180`): the concatenation, in source-rank order, of
every rank's outgoing bucket for destination `r`.  `allreads` holds the
per-rank local read sets.  This is the exchanged data under correctly
sized buffers; the buffer-size accounting of lines 132-133 and 170 (and
its int-width overflow) is modelled by `GetKmerCountMapKeysChecked`
below. -/
def recvKmers (hash : List Char → Nat) (k P : Nat)
    (allreads : List (List (List Char))) (r : Nat) : List (List Char) :=
  (allreads.map (fun reads => kmerBucket hash k P reads r)).flatten

/-- The key list of the map built by `GetKmerCountMapKeys`
(`src/KmerComm.cpp:185-194`) in the idealized case that every byte-count
total was computed exactly: each received k-mer is inserted if not
already present (`kmermap.find(mer) == kmermap.end()`), so the key set
is the received list with duplicates removed, first occurrences kept.
The faithful router including the int-width size accounting is
`GetKmerCountMapKeysChecked`; it returns `some` of this list exactly
when no total wraps. -/
def GetKmerCountMapKeys (hash : List Char → Nat) (k P : Nat)
    (allreads : List (List (List Char))) (r : Nat) : List (List Char) :=
  (recvKmers hash k P allreads r).dedup

/-! ## Buffer-size accumulation (`src/KmerComm.cpp:132-133`) -/

/-- Truncation of a mathematical integer to the 32-bit `int` value range
(two's complement), as performed when a wider sum is assigned back to
the `int` accumulator of `std::accumulate(..., 0)`. -/
def toInt32 (z : Int) : Int :=
  (z + 2 ^ 31) % 2 ^ 32 - 2 ^ 31

/-- `int64_t totsend = std::accumulate(sendcnt.begin(), sendcnt.end(), 0);`
(`src/KmerComm.cpp:132`): the initial value is the `int` literal `0`, so
the fold's accumulator has type `int`; each step adds the next
`MPI_Count_type` element at 64 bits and narrows the result back into
the `int` accumulator.  The final `int` is then widened into the
`int64_t` variable. -/
def totsendCode (sendcnt : List Int) : Int :=
  sendcnt.foldl (fun acc c => toInt32 (acc + c)) 0

/-- The local `sendcnt` vector (`src/KmerComm.cpp:108-117`):
`sendcnt[i] = kmerbuckets[i].size() * TKmer::N_BYTES`, one entry per
destination rank.  `nbytes` stands for the fixed serialized width
`TKmer::N_BYTES`. -/
def sendcntOf (nbytes : Nat) (hash : List Char → Nat) (k P : Nat)
    (reads : List (List Char)) : List Int :=
  (List.range P).map (fun i => ((kmerBucket hash k P reads i).length * nbytes : Int))

/-- Rank `r`'s `recvcnt` vector after the `MPI_ALLTOALL` of counts
(`src/KmerComm.cpp:122`): entry `q` is the byte count rank `q` sends to
rank `r`, i.e. the size of rank `q`'s bucket for destination `r` times
`TKmer::N_BYTES`. -/
def recvcntOf (nbytes : Nat) (hash : List Char → Nat) (k P : Nat)
    (allreads : List (List (List Char))) (r : Nat) : List Int :=
  allreads.map (fun reads => ((kmerBucket hash k P reads r).length * nbytes : Int))

/-- The router of `GetKmerCountMapKeys` with the buffer-size accounting
of `src/KmerComm.cpp:132-194` included: `totsend` and `totrecv` are the
int-width folds (`totsendCode`, lines 132-133) of the per-pair byte
counts, the send/receive buffers are allocated with those totals (lines
142, 170), and `numkmerseeds = totrecv / TKmer::N_BYTES` k-mers are
deserialized from the receive buffer (lines 180-194).  When every
rank's `totsend` and this rank's `totrecv` equal the exact sums, the
deserialization covers exactly the received k-mers; when a fold wraps,
the buffers are allocated with the wrapped sizes and the packing or the
exchange writes out of bounds — undefined behaviour, surfaced as
`none`. -/
def GetKmerCountMapKeysChecked (nbytes : Nat) (hash : List Char → Nat)
    (k P : Nat) (allreads : List (List (List Char))) (r : Nat) :
    Option (List (List Char)) :=
  if (∀ reads ∈ allreads,
        totsendCode (sendcntOf nbytes hash k P reads) =
          (sendcntOf nbytes hash k P reads).sum) ∧
      totsendCode (recvcntOf nbytes hash k P allreads r) =
        (recvcntOf nbytes hash k P allreads r).sum
  then
    some (((recvKmers hash k P allreads r).take
      ((totsendCode (recvcntOf nbytes hash k P allreads r)) / (nbytes : Int)).toNat).dedup)
  else none

/-! ## Claim theorems -/

/-- Claim C3, counterexample: with `N = 5` records on `P = 3` processes
the constructor's partition is `[1, 1, 3]`; the last rank's slice size
exceeds the others' by `2`, so slice sizes do not differ by at most
one. -/
theorem c3_scatter_counterexample :
    scatterCounts 5 3 = [1, 1, 3] ∧
    (scatterCounts 5 3).headD 0 + 1 < (scatterCounts 5 3).getLastD 0 := by
  decide

/-- Claim C3 (amended): for `N ≥ P ≥ 1`, the constructor's partition
gives each of the first `P-1` ranks exactly `⌊N/P⌋` records and the
last rank `N - (P-1)·⌊N/P⌋ = ⌊N/P⌋ + (N mod P)` records; the sizes sum
to `N` and the last rank exceeds the others by exactly `N mod P`, which
can be as large as `P - 1`. -/
theorem c3_scatter_partition (N P : Nat) (hP : 0 < P) (hNP : P ≤ N) :
    scatterCounts N P = List.replicate (P - 1) (N / P) ++ [N / P + N % P] ∧
    (scatterCounts N P).sum = N ∧
    (scatterCounts N P).length = P ∧
    N % P ≤ P - 1 := by
  have hmul : (P - 1) * (N / P) + N / P = P * (N / P) := by
    cases P with
    | zero => omega
    | succ p => simp [Nat.succ_mul]
  have hb : (P - 1) * (N / P) ≤ N := by
    calc (P - 1) * (N / P) ≤ (P - 1) * (N / P) + N / P := Nat.le_add_right _ _
      _ = P * (N / P) := hmul
      _ ≤ P * (N / P) + N % P := Nat.le_add_right _ _
      _ = N := Nat.div_add_mod N P
  have hlast : N - (P - 1) * (N / P) = N / P + N % P := by
    rw [Nat.sub_eq_iff_eq_add hb]
    calc N = P * (N / P) + N % P := (Nat.div_add_mod N P).symm
      _ = (P - 1) * (N / P) + N / P + N % P := by rw [hmul]
      _ = N / P + N % P + (P - 1) * (N / P) := by ring
  have hmod : N % P < P := Nat.mod_lt _ hP
  refine ⟨by rw [scatterCounts, hlast], ?_, ?_, by omega⟩
  · rw [scatterCounts, hlast]
    simp only [List.sum_append, List.sum_replicate, smul_eq_mul, List.sum_cons,
      List.sum_nil, add_zero]
    rw [← add_assoc, hmul, Nat.div_add_mod]
  · rw [scatterCounts]
    simp only [List.length_append, List.length_replicate, List.length_cons,
      List.length_nil]
    omega

/-- Claim C3 witness: the amended partition theorem at `N = 7`, `P = 3`
(slice sizes `(2, 2, 3)`, §8 scenario 4). -/
theorem c3_scatter_partition_witness :
    (0 < 3 ∧ 3 ≤ 7) ∧
    (scatterCounts 7 3 = List.replicate (3 - 1) (7 / 3) ++ [7 / 3 + 7 % 3] ∧
      (scatterCounts 7 3).sum = 7 ∧
      (scatterCounts 7 3).length = 3 ∧
      7 % 3 ≤ 3 - 1) :=
  ⟨⟨by decide, by decide⟩, c3_scatter_partition 7 3 (by decide) (by decide)⟩

/-- Claim C4: `src/FastaIndex.cpp` clamps the byte range with
`std::max(endpos, filesize)` while `src/src/FastaIndex.cpp` (and the
spec) use `std::min`.  On the slice `[⟨len 4, pos 0, bases 80⟩]` with
file size `100`, the `max` form extends the chunk to byte `100` where
the mandated `min` form ends it at byte `4`. -/
theorem c4_clamp_divergence :
    mychunkRangeMain 100 [⟨4, 0, 80⟩] = some (0, 100) ∧
    mychunkRangeAlt 100 [⟨4, 0, 80⟩] = some (0, 4) ∧
    mychunkRangeMain 100 [⟨4, 0, 80⟩] ≠ mychunkRangeAlt 100 [⟨4, 0, 80⟩] := by
  decide

/-- Claim C5, counterexample: when the `.fai` cannot be opened on rank 0
(`fileLines = none`), the constructor raises nothing: `getline` yields
no lines, rank 0's record list is empty, and the scatter hands every
rank an empty slice (shown here for `P = 2`), whereas the spec-modelled
build fails with `IndexUnavailable`. -/
theorem c5_no_error_counterexample :
    fastaIndexBuildRecords none ⟨0, 0, 0⟩ 2 = [[], []] ∧
    fastaIndexBuildSpec none ⟨0, 0, 0⟩ 2 =
      Except.error IndexError.IndexUnavailable :=
  ⟨rfl, rfl⟩

/-- Claim C5 (amended): if the `.fai` cannot be opened on rank 0,
construction does not fail; rank 0 parses zero records and every one of
the `P` ranks receives an empty slice.  No `IndexUnavailable` (or any
other) error path exists in the code. -/
theorem c5_unopenable_fai_silent (junk : FaidxRecord) (P : Nat) (_hP : 0 < P) :
    rank0LoadRecords junk none = [] ∧
    fastaIndexBuildRecords none junk P = List.replicate P [] := by
  refine ⟨rfl, ?_⟩
  unfold fastaIndexBuildRecords rank0LoadRecords scatterSlices
  simp

/-- Claim C5 witness: the amended silent-construction theorem at
`P = 3`. -/
theorem c5_unopenable_fai_silent_witness :
    0 < 3 ∧
    (rank0LoadRecords ⟨0, 0, 0⟩ none = [] ∧
      fastaIndexBuildRecords none ⟨0, 0, 0⟩ 3 = List.replicate 3 []) :=
  ⟨by decide, c5_unopenable_fai_silent ⟨0, 0, 0⟩ 3 (by decide)⟩

/-- Claim C6: with `N = 0` and `P = 1` the scatter succeeds (one empty
slice) and the router returns an empty map, but the materializer
unconditionally takes `records.front()` and `records.back()` on the
empty slice — undefined behaviour, surfaced as `none` instead of the
empty read vector the claim promises. -/
theorem c6_empty_slice_divergence :
    scatterSlices [] 1 = [[]] ∧
    GetMyReads (fun _ => 'A') 0 [] = none ∧
    GetKmerCountMapKeys (fun km => km.length) 7 1 [[]] 0 = [] :=
  ⟨rfl, rfl, rfl⟩

/-- Claim C9: the totals of `src/KmerComm.cpp:132-133` are accumulated
at `int` width (initial value is the `int` literal `0`).  With a single
destination owing `2^31` bytes the exact sum is `2147483648` but the
code computes `-2147483648`. -/
theorem c9_totsend_overflow :
    totsendCode [(2147483648 : Int)] = -2147483648 ∧
    List.sum [(2147483648 : Int)] = 2147483648 ∧
    totsendCode [(2147483648 : Int)] ≠ List.sum [(2147483648 : Int)] := by
  decide

/-- Claim C10: rank 0 appends exactly one faidx record per `.fai` line,
whatever the line holds; parsing has no failure path, and a blank line
appends a record whose fields keep the indeterminate
(default-initialized) values. -/
theorem c10_one_record_per_line (junk : FaidxRecord) (lines : List (List Char)) :
    (rank0LoadRecords junk (some lines)).length = lines.length ∧
    (GetFaidxRecord junk []).1 = junk := by
  refine ⟨?_, rfl⟩
  simp [rank0LoadRecords]

/-- Claim C2: on a non-empty record slice whose records have positive
wrap width (the copy loop of the C++ does not terminate on a record
with `bases = 0` and `len > 0`), the materializer returns one read per
record, in record order, and the read at index `i` has exactly the
`len` of the record at index `i`. -/
theorem c2_materializer_reads (file : Nat → Char) (filesize : Nat)
    (records : List FaidxRecord) (hne : records ≠ [])
    (hb : ∀ rec ∈ records, 0 < rec.bases) :
    ∃ reads, GetMyReads file filesize records = some reads ∧
      reads.length = records.length ∧
      reads.map List.length = records.map FaidxRecord.len := by
  match records, hne with
  | first :: rest, _ =>
    refine ⟨_, rfl, by simp [GetMyReads, rangeOfRecords], ?_⟩
    show ((first :: rest).map _).map List.length = _
    rw [List.map_map]
    refine List.map_congr_left ?_
    intro rec hrec
    exact copyRun_length _ _ _ (hb rec hrec) _ _

/-- Claim C2 witness: one record of length 7 wrapped at width 3; the
materializer emits a single read of length 7. -/
theorem c2_materializer_reads_witness :
    ([(⟨7, 0, 3⟩ : FaidxRecord)] ≠ [] ∧
      (∀ rec ∈ [(⟨7, 0, 3⟩ : FaidxRecord)], 0 < rec.bases)) ∧
    (∃ reads, GetMyReads (fun _ => 'G') 9 [(⟨7, 0, 3⟩ : FaidxRecord)] = some reads ∧
      reads.length = [(⟨7, 0, 3⟩ : FaidxRecord)].length ∧
      reads.map List.length = [(⟨7, 0, 3⟩ : FaidxRecord)].map FaidxRecord.len) :=
  ⟨⟨by decide, by decide⟩,
    c2_materializer_reads (fun _ => 'G') 9 [⟨7, 0, 3⟩] (by decide) (by decide)⟩

/-- Claim C7: the enumerator trace over the read set is the
concatenation of the per-read traces in read order; within a read of
length `L` it holds one invocation per window offset `i ∈ [0, L-k]`
(none when `L < k`), in ascending offset order, with the canonical
k-mer of window `s[i..i+k)`; a read of length exactly `k` contributes
exactly one invocation. -/
theorem c7_enumerator_trace (k : Nat) (reads : List (List Char))
    (s : List Char) (_hs : s ∈ reads) :
    foreachKmer k reads = reads.flatMap (foreachKmerRead k) ∧
    (foreachKmerRead k s).length = (if s.length < k then 0 else s.length - k + 1) ∧
    (∀ i, i < (foreachKmerRead k s).length →
      (foreachKmerRead k s).getD i [] = canonicalKmer ((s.drop i).take k)) ∧
    (s.length = k → (foreachKmerRead k s).length = 1) := by
  have hlen : (foreachKmerRead k s).length =
      (if s.length < k then 0 else s.length - k + 1) := by
    rw [foreachKmerRead]
    split <;> simp
  refine ⟨rfl, hlen, ?_, ?_⟩
  · intro i hi
    rw [hlen] at hi
    rw [foreachKmerRead]
    split
    · rename_i h
      rw [if_pos h] at hi
      omega
    · rename_i h
      rw [if_neg h] at hi
      rw [List.getD_eq_getElem _ _ (by simpa using hi)]
      simp
  · intro hk
    rw [hlen, hk]
    simp

/-- Claim C7 witness: the enumerator trace on the reads
`[ACGT, AC]` with `k = 3`: read `ACGT` yields the two windows `ACG`
and `CGT` in ascending order, and a length-3 read would yield exactly
one. -/
theorem c7_enumerator_trace_witness :
    (['A', 'C', 'G', 'T'] ∈ [['A', 'C', 'G', 'T'], ['A', 'C']]) ∧
    (foreachKmer 3 [['A', 'C', 'G', 'T'], ['A', 'C']] =
        [['A', 'C', 'G', 'T'], ['A', 'C']].flatMap (foreachKmerRead 3) ∧
      (foreachKmerRead 3 ['A', 'C', 'G', 'T']).length =
        (if (['A', 'C', 'G', 'T'] : List Char).length < 3 then 0
          else (['A', 'C', 'G', 'T'] : List Char).length - 3 + 1) ∧
      (∀ i, i < (foreachKmerRead 3 ['A', 'C', 'G', 'T']).length →
        (foreachKmerRead 3 ['A', 'C', 'G', 'T']).getD i [] =
          canonicalKmer (((['A', 'C', 'G', 'T'] : List Char).drop i).take 3)) ∧
      ((['A', 'C', 'G', 'T'] : List Char).length = 3 →
        (foreachKmerRead 3 ['A', 'C', 'G', 'T']).length = 1)) :=
  ⟨by decide,
    c7_enumerator_trace 3 [['A', 'C', 'G', 'T'], ['A', 'C']]
      ['A', 'C', 'G', 'T'] (by decide)⟩

/-- Membership in a per-read enumerator trace: exactly the canonical
k-mers of the length-`k` windows of the read. -/
theorem mem_foreachKmerRead (k : Nat) (s km : List Char) :
    km ∈ foreachKmerRead k s ↔
      ∃ i, i + k ≤ s.length ∧ km = canonicalKmer ((s.drop i).take k) := by
  rw [foreachKmerRead]
  split
  · rename_i h
    simp only [List.not_mem_nil, false_iff, not_exists, not_and]
    intro i hik
    omega
  · rename_i h
    simp only [List.mem_map, List.mem_range]
    constructor
    · rintro ⟨i, hi, rfl⟩
      exact ⟨i, by omega, rfl⟩
    · rintro ⟨i, hi, rfl⟩
      exact ⟨i, by omega, rfl⟩

/-- Membership in the full enumerator trace of a read set. -/
theorem mem_foreachKmer (k : Nat) (reads : List (List Char)) (km : List Char) :
    km ∈ foreachKmer k reads ↔
      ∃ s ∈ reads, ∃ i, i + k ≤ s.length ∧
        km = canonicalKmer ((s.drop i).take k) := by
  rw [foreachKmer]
  simp only [List.mem_flatMap, mem_foreachKmerRead]

/-- Membership in the key list built by `GetKmerCountMapKeys` on rank
`r`: exactly the canonical window k-mers of the global read set whose
hash reduces to `r` modulo `P`. -/
theorem mem_GetKmerCountMapKeys (hash : List Char → Nat) (k P : Nat)
    (allreads : List (List (List Char))) (r : Nat) (km : List Char) :
    km ∈ GetKmerCountMapKeys hash k P allreads r ↔
      (hash km % P = r ∧
        ∃ reads ∈ allreads, ∃ s ∈ reads, ∃ i, i + k ≤ s.length ∧
          km = canonicalKmer ((s.drop i).take k)) := by
  rw [GetKmerCountMapKeys, List.mem_dedup, recvKmers, List.mem_flatten]
  constructor
  · rintro ⟨l, hl, hkml⟩
    rw [List.mem_map] at hl
    obtain ⟨reads, hreads, rfl⟩ := hl
    simp only [kmerBucket, List.mem_filter, beq_iff_eq, mem_foreachKmer] at hkml
    obtain ⟨hkm, hown⟩ := hkml
    exact ⟨hown, reads, hreads, hkm⟩
  · rintro ⟨hown, reads, hreads, hkm⟩
    refine ⟨kmerBucket hash k P reads r, List.mem_map.mpr ⟨reads, hreads, rfl⟩, ?_⟩
    simp only [kmerBucket, List.mem_filter, beq_iff_eq, mem_foreachKmer]
    exact ⟨hkm, hown⟩

/-- The bucket a rank fills for one destination splits along the read
list one read at a time. -/
theorem kmerBucket_cons (hash : List Char → Nat) (k P : Nat) (s : List Char)
    (l : List (List Char)) (dest : Nat) :
    kmerBucket hash k P (s :: l) dest =
      (foreachKmerRead k s).filter (fun km => hash km % P == dest) ++
        kmerBucket hash k P l dest := by
  simp [kmerBucket, foreachKmer, List.flatMap_cons, List.filter_append]

/-- With `k = 1` and `P = 1` under the length hash, `M` copies of the
read `A` contribute exactly `M` k-mers to the single bucket. -/
theorem kmerBucket_replicate_A (M : Nat) :
    (kmerBucket List.length 1 1 (List.replicate M ['A']) 0).length = M := by
  induction M with
  | zero => rfl
  | succ m ih =>
    rw [List.replicate_succ, kmerBucket_cons, List.length_append, ih]
    have h1 : ((foreachKmerRead 1 ['A']).filter
        (fun km => List.length km % 1 == 0)).length = 1 := rfl
    rw [h1]
    omega

/-- The `sendcnt` vector of a rank holding `M` copies of the read `A`
with `k = 1`, `P = 1`, 16-byte k-mers: a single entry of `16·M` bytes. -/
theorem sendcnt_replicate_A (M : Nat) :
    sendcntOf 16 List.length 1 1 (List.replicate M ['A']) = [(M : Int) * 16] := by
  rw [sendcntOf, show List.range 1 = [0] from rfl, List.map_singleton,
    kmerBucket_replicate_A]
  norm_num

/-- The exact sum of a rank's `recvcnt` entries is the number of
received k-mers times the serialized width. -/
theorem recvcnt_sum (nbytes : Nat) (hash : List Char → Nat) (k P : Nat)
    (allreads : List (List (List Char))) (r : Nat) :
    (recvcntOf nbytes hash k P allreads r).sum =
      ((recvKmers hash k P allreads r).length : Int) * (nbytes : Int) := by
  rw [recvcntOf, recvKmers]
  induction allreads with
  | nil => simp
  | cons a l ih =>
    rw [List.map_cons, List.sum_cons, List.map_cons, List.flatten_cons,
      List.length_append, ih]
    push_cast
    ring

/-- Claim C1, counterexample: one rank (`P = 1`), `k = 1`, 16-byte
k-mers, and `2^27` copies of the read `A`.  The canonical 1-mer `A`
occurs in the dataset and is owned by rank 0, so the claim requires it
to be a key of rank 0's map — but the receive total is
`2^27 · 16 = 2^31` bytes, the int-width fold of `src/KmerComm.cpp:132-133`
wraps to `-2^31`, the buffers are mis-sized and no well-defined key
set is produced at all (surfaced as `none`). -/
theorem c1_router_counterexample :
    (∃ reads ∈ [List.replicate (2 ^ 27) (['A'] : List Char)], ∃ s ∈ reads,
      ∃ i, i + 1 ≤ s.length ∧
        (['A'] : List Char) = canonicalKmer ((s.drop i).take 1)) ∧
    List.length (['A'] : List Char) % 1 = 0 ∧
    GetKmerCountMapKeysChecked 16 List.length 1 1
      [List.replicate (2 ^ 27) ['A']] 0 = none := by
  refine ⟨?_, by decide, ?_⟩
  · exact ⟨List.replicate (2 ^ 27) ['A'], List.mem_singleton.mpr rfl,
      ['A'], List.mem_replicate.mpr ⟨by norm_num, rfl⟩, 0, by decide, by decide⟩
  · rw [GetKmerCountMapKeysChecked, if_neg]
    rintro ⟨hall, -⟩
    have h1 := hall (List.replicate (2 ^ 27) ['A']) (List.mem_singleton.mpr rfl)
    rw [sendcnt_replicate_A] at h1
    norm_num [totsendCode, toInt32] at h1

/-- Claim C1 (amended): provided every rank's int-width accumulation of
its per-destination byte counts, and rank `r`'s accumulation of its
receive counts, equal the exact sums (totals below `2^31` bytes), the
checked router terminates with a well-defined map whose key set on each
rank `r < P` is exactly the set of canonical window k-mers of the
global dataset owned by `r` (owner = hash mod `P`); consequently each
canonical k-mer occurring anywhere in the dataset is then a key on
exactly one rank, its owner. -/
theorem c1_router_key_set (nbytes : Nat) (hash : List Char → Nat) (k P : Nat)
    (allreads : List (List (List Char))) (hP : 0 < P) (hnb : 0 < nbytes)
    (hsend : ∀ reads ∈ allreads,
      totsendCode (sendcntOf nbytes hash k P reads) =
        (sendcntOf nbytes hash k P reads).sum)
    (hrecv : ∀ r, r < P →
      totsendCode (recvcntOf nbytes hash k P allreads r) =
        (recvcntOf nbytes hash k P allreads r).sum) :
    (∀ r, r < P →
      GetKmerCountMapKeysChecked nbytes hash k P allreads r =
        some (GetKmerCountMapKeys hash k P allreads r)) ∧
    (∀ r, r < P → ∀ km,
      (km ∈ GetKmerCountMapKeys hash k P allreads r ↔
        (hash km % P = r ∧
          ∃ reads ∈ allreads, ∃ s ∈ reads, ∃ i, i + k ≤ s.length ∧
            km = canonicalKmer ((s.drop i).take k)))) ∧
    (∀ km,
      (∃ reads ∈ allreads, ∃ s ∈ reads, ∃ i, i + k ≤ s.length ∧
        km = canonicalKmer ((s.drop i).take k)) →
      ∃! r, r < P ∧ ∃ keys,
        GetKmerCountMapKeysChecked nbytes hash k P allreads r = some keys ∧
        km ∈ keys) := by
  have hsome : ∀ r, r < P →
      GetKmerCountMapKeysChecked nbytes hash k P allreads r =
        some (GetKmerCountMapKeys hash k P allreads r) := by
    intro r hr
    have hlen : ((totsendCode (recvcntOf nbytes hash k P allreads r)) /
        (nbytes : Int)).toNat = (recvKmers hash k P allreads r).length := by
      rw [hrecv r hr, recvcnt_sum,
        Int.mul_ediv_cancel _ (Int.natCast_ne_zero.mpr hnb.ne'),
        Int.toNat_natCast]
    rw [GetKmerCountMapKeysChecked, if_pos ⟨hsend, hrecv r hr⟩, hlen,
      List.take_length, GetKmerCountMapKeys]
  refine ⟨hsome, fun r _ km => mem_GetKmerCountMapKeys hash k P allreads r km, ?_⟩
  intro km hocc
  have hown : hash km % P < P := Nat.mod_lt _ hP
  refine ⟨hash km % P, ⟨hown, GetKmerCountMapKeys hash k P allreads (hash km % P),
    hsome _ hown, (mem_GetKmerCountMapKeys hash k P allreads _ km).mpr ⟨rfl, hocc⟩⟩, ?_⟩
  rintro r ⟨hr, keys, hkeys, hmem⟩
  rw [hsome r hr] at hkeys
  injection hkeys with hkeys
  subst hkeys
  exact (((mem_GetKmerCountMapKeys hash k P allreads r km).mp hmem).1).symm

/-- Claim C1 witness: two ranks, `k = 2`, 16-byte k-mers, rank 0 holds
the single read `ACG` and rank 1 holds nothing; the byte totals are
tiny so no fold wraps, the checked router yields a map on both ranks,
every key lands on rank 0 under the length hash and each occurring
canonical 2-mer has exactly one owner. -/
theorem c1_router_key_set_witness :
    (0 < 2 ∧ 0 < 16 ∧
      (∀ reads ∈ [[['A', 'C', 'G']], []],
        totsendCode (sendcntOf 16 List.length 2 2 reads) =
          (sendcntOf 16 List.length 2 2 reads).sum) ∧
      (∀ r, r < 2 →
        totsendCode (recvcntOf 16 List.length 2 2 [[['A', 'C', 'G']], []] r) =
          (recvcntOf 16 List.length 2 2 [[['A', 'C', 'G']], []] r).sum)) ∧
    ((∀ r, r < 2 →
      GetKmerCountMapKeysChecked 16 List.length 2 2 [[['A', 'C', 'G']], []] r =
        some (GetKmerCountMapKeys List.length 2 2 [[['A', 'C', 'G']], []] r)) ∧
    (∀ r, r < 2 → ∀ km,
      (km ∈ GetKmerCountMapKeys List.length 2 2 [[['A', 'C', 'G']], []] r ↔
        (List.length km % 2 = r ∧
          ∃ reads ∈ [[['A', 'C', 'G']], []], ∃ s ∈ reads, ∃ i,
            i + 2 ≤ s.length ∧ km = canonicalKmer ((s.drop i).take 2)))) ∧
    (∀ km,
      (∃ reads ∈ [[['A', 'C', 'G']], []], ∃ s ∈ reads, ∃ i,
        i + 2 ≤ s.length ∧ km = canonicalKmer ((s.drop i).take 2)) →
      ∃! r, r < 2 ∧ ∃ keys,
        GetKmerCountMapKeysChecked 16 List.length 2 2 [[['A', 'C', 'G']], []] r =
          some keys ∧ km ∈ keys)) :=
  ⟨⟨by decide, by decide, by decide, by decide⟩,
    c1_router_key_set 16 List.length 2 2 [[['A', 'C', 'G']], []]
      (by decide) (by decide) (by decide) (by decide)⟩

/-- Claim C8: `GetKmerCountMapKeys` is deterministic and idempotent:
two runs on equal inputs (same per-rank reads, same `k`, same `P`, same
hash) yield equal key lists, hence equal key sets, on every rank. -/
theorem c8_deterministic_keys (hash1 hash2 : List Char → Nat)
    (k1 k2 P1 P2 : Nat) (ar1 ar2 : List (List (List Char))) (r1 r2 : Nat)
    (hh : hash1 = hash2) (hk : k1 = k2) (hP : P1 = P2) (ha : ar1 = ar2)
    (hr : r1 = r2) :
    GetKmerCountMapKeys hash1 k1 P1 ar1 r1 =
      GetKmerCountMapKeys hash2 k2 P2 ar2 r2 ∧
    (GetKmerCountMapKeys hash1 k1 P1 ar1 r1).toFinset =
      (GetKmerCountMapKeys hash2 k2 P2 ar2 r2).toFinset := by
  subst hh hk hP ha hr
  exact ⟨rfl, rfl⟩

/-- Claim C8 witness: two textually identical runs on one rank holding
the read `ACGT` with `k = 3`, `P = 1`. -/
theorem c8_deterministic_keys_witness :
    (List.length = (List.length : List Char → Nat) ∧ 3 = 3 ∧ 1 = 1 ∧
      [[['A', 'C', 'G', 'T']]] = [[['A', 'C', 'G', 'T']]] ∧ 0 = 0) ∧
    (GetKmerCountMapKeys List.length 3 1 [[['A', 'C', 'G', 'T']]] 0 =
        GetKmerCountMapKeys List.length 3 1 [[['A', 'C', 'G', 'T']]] 0 ∧
      (GetKmerCountMapKeys List.length 3 1 [[['A', 'C', 'G', 'T']]] 0).toFinset =
        (GetKmerCountMapKeys List.length 3 1 [[['A', 'C', 'G', 'T']]] 0).toFinset) :=
  ⟨⟨rfl, rfl, rfl, rfl, rfl⟩,
    c8_deterministic_keys List.length List.length 3 3 1 1
      [[['A', 'C', 'G', 'T']]] [[['A', 'C', 'G', 'T']]] 0 0 rfl rfl rfl rfl rfl⟩

end KmerComm
